import Mathlib

/-!
Verification of the Meridian astrocartography core (src/backend).

The development shallowly embeds the curve-synthesis and intersection
engine: the dateline segmenter and horizon-line generator
(line_ac_dc.py), the parametric spline fitter (spline_utils.py), the
meridian MC/IC lines (line_ic_mc.py), the MC/ASC aspect-line helpers
(line_aspects.py) and the paran intersection finder (line_parans.py).

Machine floats of the source are idealised as elements of a linear
ordered field (ℚ for executable witnesses, ℝ where trigonometry is
involved); the external boundaries (pyproj geodesic distances and the
scipy spline solver) are explicit parameters of the embedding.
-/

set_option maxHeartbeats 1000000
set_option linter.unusedSectionVars false

section Util

variable {α : Type*} [LinearOrderedField α]

/-- Python float modulo: `x % m = x - m * floor (x / m)`, the representative
of `x` in `[0, m)` for positive `m`, as used by `% 360` in the source. -/
def pymod [FloorRing α] (x m : α) : α := x - m * ((⌊x / m⌋ : ℤ) : α)

/-- Longitude wrap `((x + 180) % 360) - 180` (source `_wrap_longitude` in
line_aspects.py and the re-wrap in spline_utils.py). -/
def wrap180 [FloorRing α] (x : α) : α := pymod (x + 180) 360 - 180

/-- Longitude wrap `((x + 540) % 360) - 180` (source `_normalize_lon` in
line_aspects.py and the rise/set longitude normalisation in line_ac_dc.py). -/
def wrap540 [FloorRing α] (x : α) : α := pymod (x + 540) 360 - 180

theorem pymod_nonneg [FloorRing α] (x m : α) (hm : 0 < m) : 0 ≤ pymod x m := by
  have h := Int.floor_le (x / m)
  have : m * ((⌊x / m⌋ : ℤ) : α) ≤ m * (x / m) := by
    exact mul_le_mul_of_nonneg_left h (le_of_lt hm)
  have hxm : m * (x / m) = x := by field_simp
  simp only [pymod]
  nlinarith

theorem pymod_lt [FloorRing α] (x m : α) (hm : 0 < m) : pymod x m < m := by
  have h := Int.lt_floor_add_one (x / m)
  have : m * (x / m) < m * ((⌊x / m⌋ : ℤ) + 1 : α) := by
    exact mul_lt_mul_of_pos_left h hm
  have hxm : m * (x / m) = x := by field_simp
  simp only [pymod]
  push_cast at this ⊢
  nlinarith

theorem pymod_sub_int_mul [FloorRing α] (x m : α) : ∃ k : ℤ, pymod x m = x - m * k :=
  ⟨⌊x / m⌋, rfl⟩

theorem pymod_add_int_mul [FloorRing α] (x m : α) (k : ℤ) (hm : m ≠ 0) :
    pymod (x + m * k) m = pymod x m := by
  simp only [pymod]
  have h : (x + m * k) / m = x / m + k := by field_simp; ring
  rw [h, Int.floor_add_int]
  push_cast
  ring

theorem pymod_self_eq [FloorRing α] (x m : α) (h0 : 0 ≤ x) (h1 : x < m) :
    pymod x m = x := by
  have hm : (0 : α) < m := lt_of_le_of_lt h0 h1
  have : ⌊x / m⌋ = 0 := by
    rw [Int.floor_eq_zero_iff]
    constructor
    · exact div_nonneg h0 (le_of_lt hm)
    · rw [div_lt_one hm]; exact h1
  simp [pymod, this]

theorem wrap180_mem (x : α) [FloorRing α] : -180 ≤ wrap180 x ∧ wrap180 x < 180 := by
  have h1 := pymod_nonneg (x + 180) (360 : α) (by norm_num)
  have h2 := pymod_lt (x + 180) (360 : α) (by norm_num)
  constructor <;> simp only [wrap180] <;> linarith

theorem wrap540_mem (x : α) [FloorRing α] : -180 ≤ wrap540 x ∧ wrap540 x < 180 := by
  have h1 := pymod_nonneg (x + 540) (360 : α) (by norm_num)
  have h2 := pymod_lt (x + 540) (360 : α) (by norm_num)
  constructor <;> simp only [wrap540] <;> linarith

/-- numpy.linspace: `n` evenly spaced samples from `a` to `b` inclusive. -/
def linspace (a b : α) (n : ℕ) : List α :=
  (List.range n).map (fun (i : ℕ) => if n ≤ 1 then a else a + (b - a) * (i : α) / ((n : α) - 1))

theorem linspace_length (a b : α) (n : ℕ) : (linspace a b n).length = n := by
  simp [linspace]

/-- Step of numpy.unwrap with period 360: map a consecutive difference into
`[-180, 180]`, keeping `+180` for a positive difference (the source unwraps
in radians with period `2π` and converts back, which is the same map). -/
def unwrapStep [FloorRing α] (d : α) : α :=
  let m := pymod (d + 180) 360 - 180
  if m = -180 ∧ 0 < d then 180 else m

def unwrapAux [FloorRing α] (prev : α) : List α → List α
  | [] => []
  | y :: ys =>
    let ny := prev + unwrapStep (y - prev)
    ny :: unwrapAux ny ys

/-- numpy.unwrap (period 360, in degrees): remove jumps larger than 180
between consecutive values by adding multiples of 360. -/
def unwrapDeg [FloorRing α] : List α → List α
  | [] => []
  | x :: xs => x :: unwrapAux x xs

theorem unwrapAux_length [FloorRing α] (prev : α) (l : List α) :
    (unwrapAux prev l).length = l.length := by
  induction l generalizing prev with
  | nil => rfl
  | cons y ys ih => simp [unwrapAux, ih]

theorem unwrapDeg_length [FloorRing α] (l : List α) : (unwrapDeg l).length = l.length := by
  cases l with
  | nil => rfl
  | cons x xs => simp [unwrapDeg, unwrapAux_length]

/-- numpy.interp inner walk: `x0, f0` is the most recent node already passed. -/
def npInterpGo (x0 f0 : α) : List α → List α → α → α
  | x1 :: xs, f1 :: fs, x =>
    if x ≤ x1 then f0 + (f1 - f0) * (x - x0) / (x1 - x0)
    else npInterpGo x1 f1 xs fs x
  | _, _, _ => f0

/-- numpy.interp: piecewise-linear interpolation over sorted nodes `xp` with
values `fp`, clamping to the end values outside the node range. -/
def npInterp (xp fp : List α) (x : α) : α :=
  match xp, fp with
  | x0 :: xs, f0 :: fs => if x ≤ x0 then f0 else npInterpGo x0 f0 xs fs x
  | _, _ => 0

end Util

section Dateline

variable {α : Type*} [LinearOrderedField α]

/-- Segment filter of `split_dateline` (line_ac_dc.py line 38/42): all
consecutive points of the segment differ in longitude by at most `maxJump`. -/
def okSegB (maxJump : α) : List (α × α) → Bool
  | a :: b :: rest =>
    if |b.1 - a.1| ≤ maxJump then okSegB maxJump (b :: rest) else false
  | _ => true

/-- split_dateline (line_ac_dc.py lines 32-44): split a lon/lat sequence
wherever `|Δlon| > 180`, and drop any segment with an internal jump larger
than `maxJump`. The accumulator `seg` is kept in reverse order, so the head
of `seg` is Python's `seg[-1]`. -/
def split_datelineAux (maxJump : α) (seg : List (α × α)) :
    List (α × α) → List (List (α × α))
  | [] => if okSegB maxJump seg.reverse then [seg.reverse] else []
  | p :: rest =>
    if |p.1 - (seg.headD p).1| > 180 then
      (if okSegB maxJump seg.reverse then [seg.reverse] else []) ++
        split_datelineAux maxJump [p] rest
    else
      split_datelineAux maxJump (p :: seg) rest

/-- split_dateline entry point. The source indexes `seq[0]` and would raise
`IndexError` on an empty sequence; the empty case is mapped to no segments,
which no claim depends on. -/
def split_dateline (seq : List (α × α)) (maxJump : α) : List (List (α × α)) :=
  match seq with
  | [] => []
  | p :: rest => split_datelineAux maxJump [p] rest

theorem okSegB_iff_chain (maxJump : α) (l : List (α × α)) :
    okSegB maxJump l = true ↔ List.Chain' (fun a b => |b.1 - a.1| ≤ maxJump) l := by
  induction l with
  | nil => simp [okSegB]
  | cons a l ih =>
    cases l with
    | nil => simp [okSegB]
    | cons b rest =>
      rw [List.chain'_cons]
      constructor
      · intro h
        by_cases hab : |b.1 - a.1| ≤ maxJump
        · exact ⟨hab, (ih).mp (by simpa [okSegB, hab] using h)⟩
        · simp [okSegB, hab] at h
      · intro ⟨hab, hch⟩
        simpa [okSegB, hab] using (ih).mpr hch

omit [LinearOrderedField α] in
theorem chain'_and_of {P Q : (α × α) → (α × α) → Prop} (l : List (α × α))
    (hP : List.Chain' P l) (hQ : List.Chain' Q l) :
    List.Chain' (fun a b => P a b ∧ Q a b) l := by
  induction l with
  | nil => simp
  | cons a l ih =>
    cases l with
    | nil => simp
    | cons b rest =>
      rw [List.chain'_cons] at hP hQ ⊢
      exact ⟨⟨hP.1, hQ.1⟩, ih hP.2 hQ.2⟩

theorem split_datelineAux_mem (maxJump : α) (rest : List (α × α)) :
    ∀ (seg : List (α × α)), seg ≠ [] →
      List.Chain' (fun a b => |b.1 - a.1| ≤ 180) seg.reverse →
      ∀ s ∈ split_datelineAux maxJump seg rest,
        okSegB maxJump s = true ∧ List.Chain' (fun a b => |b.1 - a.1| ≤ 180) s := by
  induction rest with
  | nil =>
    intro seg _ hchain s hs
    simp only [split_datelineAux] at hs
    by_cases hok : okSegB maxJump seg.reverse
    · simp [hok] at hs
      subst hs
      exact ⟨hok, hchain⟩
    · simp [hok] at hs
  | cons p rest ih =>
    intro seg hne hchain s hs
    simp only [split_datelineAux] at hs
    by_cases hj : |p.1 - (seg.headD p).1| > 180
    · rw [if_pos hj, List.mem_append] at hs
      rcases hs with hs | hs
      · by_cases hok : okSegB maxJump seg.reverse
        · simp [hok] at hs
          subst hs
          exact ⟨hok, hchain⟩
        · simp [hok] at hs
      · exact ih [p] (by simp) (by simp) s hs
    · rw [if_neg hj] at hs
      refine ih (p :: seg) (by simp) ?_ s hs
      rw [List.reverse_cons, List.chain'_append]
      refine ⟨hchain, List.chain'_singleton p, ?_⟩
      intro x hx y hy
      rw [List.getLast?_reverse] at hx
      simp only [List.head?_cons, Option.mem_def, Option.some.injEq] at hy
      subst hy
      obtain ⟨a, seg', rfl⟩ := List.exists_cons_of_ne_nil hne
      simp only [List.head?_cons, Option.mem_def, Option.some.injEq] at hx
      subst hx
      push_neg at hj
      simpa using hj

/-- C4: every segment emitted by `split_dateline` has all consecutive-point
longitude deltas at most the jump threshold, and at most 180°: a segment
with an internal delta above the threshold is discarded, never emitted. -/
theorem split_dateline_segments_bounded (seq : List (α × α)) (maxJump : α)
    (s : List (α × α)) (hs : s ∈ split_dateline seq maxJump) :
    List.Chain' (fun a b => |b.1 - a.1| ≤ maxJump ∧ |b.1 - a.1| ≤ 180) s := by
  cases seq with
  | nil => simp [split_dateline] at hs
  | cons p rest =>
    have h := split_datelineAux_mem maxJump rest [p] (by simp) (by simp) s hs
    exact chain'_and_of s ((okSegB_iff_chain maxJump s).mp h.1) h.2

/-- C4 witness: a concrete polyline where the segment containing an
oversized internal jump (160° > 45°) is discarded and only the remaining
dateline-safe segment is emitted. -/
theorem split_dateline_segments_bounded_witness :
    [((-170 : ℚ), (3 : ℚ))] ∈
        split_dateline [((0 : ℚ), (0 : ℚ)), (10, 1), (170, 2), (-170, 3)] 45 ∧
      List.Chain' (fun a b => |b.1 - a.1| ≤ (45 : ℚ) ∧ |b.1 - a.1| ≤ 180)
        [((-170 : ℚ), (3 : ℚ))] := by
  have hmem : [((-170 : ℚ), (3 : ℚ))] ∈
      split_dateline [((0 : ℚ), (0 : ℚ)), (10, 1), (170, 2), (-170, 3)] 45 := by
    norm_num [split_dateline, split_datelineAux, okSegB]
  exact ⟨hmem, split_dateline_segments_bounded _ 45 _ hmem⟩

end Dateline

section Meridian

variable {α : Type*} [LinearOrderedField α] [FloorRing α]

/-- GeoJSON-like feature of line_ic_mc.py: a two-point meridian line with a
planet name and a line type tag. -/
structure MeridianFeature (α : Type*) where
  coordinates : List (α × α)
  planet : String
  line_type : String

/-- calculate_mc_line (line_ic_mc.py lines 3-19). The Greenwich sidereal
time comes from the external ephemeris `swe.sidtime`, modelled as the
function parameter `sidtime` (hours, multiplied by 15 to degrees). -/
def calculate_mc_line (sidtime : α → α) (jd ra_planet : α) (pname : String) :
    MeridianFeature α :=
  let gmst := sidtime jd * 15
  let mc0 := pymod (ra_planet - gmst) 360
  let mc_long := if mc0 > 180 then mc0 - 360 else mc0
  ⟨[(mc_long, -85), (mc_long, 85)], pname, "MC"⟩

/-- calculate_ic_line (line_ic_mc.py lines 21-38): the longitude opposite
the MC, normalised the same way. -/
def calculate_ic_line (sidtime : α → α) (jd ra_planet : α) (pname : String) :
    MeridianFeature α :=
  let gmst := sidtime jd * 15
  let mc0 := pymod (ra_planet - gmst) 360
  let ic0 := pymod (mc0 + 180) 360
  let ic_long := if ic0 > 180 then ic0 - 360 else ic0
  ⟨[(ic_long, -85), (ic_long, 85)], pname, "IC"⟩

theorem pymod360_norm_mem (x : α) :
    -180 < (if pymod x 360 > 180 then pymod x 360 - 360 else pymod x 360) ∧
      (if pymod x 360 > 180 then pymod x 360 - 360 else pymod x 360) ≤ 180 := by
  have h1 := pymod_nonneg x (360 : α) (by norm_num)
  have h2 := pymod_lt x (360 : α) (by norm_num)
  by_cases h : pymod x 360 > 180 <;> simp [h] <;> constructor <;> linarith

theorem pymod360_norm_congr (x : α) :
    ∃ k : ℤ, (if pymod x 360 > 180 then pymod x 360 - 360 else pymod x 360) =
      x + 360 * k := by
  obtain ⟨k, hk⟩ := pymod_sub_int_mul x (360 : α)
  by_cases h : pymod x 360 > 180
  · exact ⟨-k - 1, by rw [if_pos h, hk]; push_cast; ring⟩
  · exact ⟨-k, by rw [if_neg h, hk]; push_cast; ring⟩

/-- C8: the MC line's longitude is `(α - θ_gst) mod 360` normalised into
`(-180, 180] ⊆ [-180, 180]`, its geometry is exactly the two points
`(λ_MC, -85)` and `(λ_MC, +85)`; the IC longitude is `λ_MC + 180°`
identically normalised; and for right ascension 0 and sidereal time 0 the
MC longitude is 0 and the IC longitude is +180 (i.e. ±180). -/
theorem meridian_lines_spec :
    (∀ (sidtime : ℚ → ℚ) (jd ra : ℚ) (pname : String),
      ∃ m i : ℚ,
        (calculate_mc_line sidtime jd ra pname).coordinates = [(m, -85), (m, 85)] ∧
        (calculate_ic_line sidtime jd ra pname).coordinates = [(i, -85), (i, 85)] ∧
        -180 ≤ m ∧ m ≤ 180 ∧ (∃ k : ℤ, m = ra - sidtime jd * 15 + 360 * k) ∧
        -180 ≤ i ∧ i ≤ 180 ∧ (∃ k : ℤ, i = m + 180 + 360 * k)) ∧
    (calculate_mc_line (fun _ => (0 : ℚ)) 0 0 "Sun").coordinates =
      [(0, -85), (0, 85)] ∧
    (calculate_ic_line (fun _ => (0 : ℚ)) 0 0 "Sun").coordinates =
      [(180, -85), (180, 85)] := by
  refine ⟨?_, ?_, ?_⟩
  · intro sidtime jd ra pname
    refine ⟨_, _, rfl, rfl, ?_⟩
    have hm := pymod360_norm_mem (α := ℚ) (ra - sidtime jd * 15)
    have hmc := pymod360_norm_congr (α := ℚ) (ra - sidtime jd * 15)
    have hi := pymod360_norm_mem (α := ℚ) (pymod (ra - sidtime jd * 15) 360 + 180)
    have hic := pymod360_norm_congr (α := ℚ) (pymod (ra - sidtime jd * 15) 360 + 180)
    obtain ⟨k1, hk1⟩ := hmc
    obtain ⟨k2, hk2⟩ := hic
    refine ⟨le_of_lt hm.1, hm.2, ⟨k1, hk1⟩, le_of_lt hi.1, hi.2, ?_⟩
    -- relate the IC normalisation to the normalised MC longitude
    by_cases h : pymod (ra - sidtime jd * 15) 360 > 180
    · exact ⟨k2 + 1, by rw [hk2, if_pos h]; push_cast; ring⟩
    · exact ⟨k2, by rw [hk2, if_neg h]⟩
  · norm_num [calculate_mc_line, pymod]
  · norm_num [calculate_ic_line, pymod]

end Meridian

section SegGeometry

/-- Planar cross product of two vectors. -/
def cross2 (u v : ℚ × ℚ) : ℚ := u.1 * v.2 - u.2 * v.1

/-- Planar dot product of two vectors. -/
def dot2 (u v : ℚ × ℚ) : ℚ := u.1 * v.1 + u.2 * v.2

/-- Vector difference of two points. -/
def vsub2 (u v : ℚ × ℚ) : ℚ × ℚ := (u.1 - v.1, u.2 - v.2)

/-- Membership of a point on a closed planar segment. -/
def OnSeg (a b p : ℚ × ℚ) : Prop :=
  ∃ t : ℚ, 0 ≤ t ∧ t ≤ 1 ∧ p = (a.1 + t * (b.1 - a.1), a.2 + t * (b.2 - a.2))

/-- Boolean segment-membership test, used only for the degenerate
zero-length branches of the intersection classifier. -/
def onSegB (a b p : ℚ × ℚ) : Bool :=
  let r := vsub2 b a
  let w := vsub2 p a
  if cross2 w r ≠ 0 then false
  else if r = (0, 0) then decide (p = a)
  else decide (0 ≤ dot2 w r ∧ dot2 w r ≤ dot2 r r)

/-- Result of intersecting two planar segments, as distinguished by
shapely's `LineString.intersection` followed by the source's
`isinstance(·, Point)` test: an empty intersection, a single point, or a
collinear overlap that shapely reports as a LineString, not a Point. -/
inductive SegInter (α : Type*) where
  | empty : SegInter α
  | point : α × α → SegInter α
  | overlap : SegInter α
deriving DecidableEq

/-- Exact planar intersection of segments `a-b` and `c-d`: the shapely
boundary called by line_parans.py line 74, idealised over exact field
arithmetic. Non-parallel segments meet in at most one point; collinear
segments sharing more than one point overlap in a LineString. -/
def segIntersection (a b c d : ℚ × ℚ) : SegInter ℚ :=
  let r := vsub2 b a
  let s := vsub2 d c
  let rxs := cross2 r s
  let qp := vsub2 c a
  if rxs ≠ 0 then
    let t := cross2 qp s / rxs
    let u := cross2 qp r / rxs
    if 0 ≤ t ∧ t ≤ 1 ∧ 0 ≤ u ∧ u ≤ 1 then
      .point (a.1 + t * r.1, a.2 + t * r.2)
    else .empty
  else if cross2 qp r ≠ 0 then .empty
  else if r = (0, 0) ∧ s = (0, 0) then
    (if a = c then .point a else .empty)
  else if r = (0, 0) then
    (if onSegB c d a then .point a else .empty)
  else if s = (0, 0) then
    (if onSegB a b c then .point c else .empty)
  else
    let drr := dot2 r r
    let t0 := dot2 qp r / drr
    let t1 := dot2 (vsub2 d a) r / drr
    let lo := max 0 (min t0 t1)
    let hi := min 1 (max t0 t1)
    if hi < lo then .empty
    else if hi = lo then .point (a.1 + lo * r.1, a.2 + lo * r.2)
    else .overlap

theorem between_of_convex (t0 t1 t u : ℚ) (h0 : 0 ≤ u) (h1 : u ≤ 1)
    (ht : t = t0 + u * (t1 - t0)) : min t0 t1 ≤ t ∧ t ≤ max t0 t1 := by
  rcases le_total t0 t1 with hle | hle
  · rw [min_eq_left hle, max_eq_right hle]
    constructor <;> nlinarith
  · rw [min_eq_right hle, max_eq_left hle]
    constructor <;> nlinarith

theorem segIntersection_overlap_of_two_points (a b c d P Q : ℚ × ℚ)
    (hPQ : P ≠ Q) (hP1 : OnSeg a b P) (hQ1 : OnSeg a b Q)
    (hP2 : OnSeg c d P) (hQ2 : OnSeg c d Q) :
    segIntersection a b c d = SegInter.overlap := by
  obtain ⟨tP, htP0, htP1, hP⟩ := hP1
  obtain ⟨tQ, htQ0, htQ1, hQ⟩ := hQ1
  obtain ⟨uP, huP0, huP1, hP2'⟩ := hP2
  obtain ⟨uQ, huQ0, huQ1, hQ2'⟩ := hQ2
  have EP1 : a.1 + tP * (b.1 - a.1) = c.1 + uP * (d.1 - c.1) := by
    have h1 := congrArg Prod.fst hP
    have h2 := congrArg Prod.fst hP2'
    simp only at h1 h2
    rw [← h1, h2]
  have EP2 : a.2 + tP * (b.2 - a.2) = c.2 + uP * (d.2 - c.2) := by
    have h1 := congrArg Prod.snd hP
    have h2 := congrArg Prod.snd hP2'
    simp only at h1 h2
    rw [← h1, h2]
  have EQ1 : a.1 + tQ * (b.1 - a.1) = c.1 + uQ * (d.1 - c.1) := by
    have h1 := congrArg Prod.fst hQ
    have h2 := congrArg Prod.fst hQ2'
    simp only at h1 h2
    rw [← h1, h2]
  have EQ2 : a.2 + tQ * (b.2 - a.2) = c.2 + uQ * (d.2 - c.2) := by
    have h1 := congrArg Prod.snd hQ
    have h2 := congrArg Prod.snd hQ2'
    simp only at h1 h2
    rw [← h1, h2]
  have hδt : tQ - tP ≠ 0 := by
    intro h
    apply hPQ
    have ht : tP = tQ := by linarith [sub_eq_zero.mp h]
    rw [hP, hQ, ht]
  have hδu : uQ - uP ≠ 0 := by
    intro h
    apply hPQ
    have hu : uP = uQ := by linarith [sub_eq_zero.mp h]
    rw [hP2', hQ2', hu]
  have hrne : ¬(b.1 - a.1 = 0 ∧ b.2 - a.2 = 0) := by
    rintro ⟨h1, h2⟩
    apply hPQ
    rw [hP, hQ, h1, h2]
    simp
  have hsne : ¬(d.1 - c.1 = 0 ∧ d.2 - c.2 = 0) := by
    rintro ⟨h1, h2⟩
    apply hPQ
    rw [hP2', hQ2', h1, h2]
    simp
  have d1 : (tQ - tP) * (b.1 - a.1) = (uQ - uP) * (d.1 - c.1) := by
    linear_combination EQ1 - EP1
  have d2 : (tQ - tP) * (b.2 - a.2) = (uQ - uP) * (d.2 - c.2) := by
    linear_combination EQ2 - EP2
  have hcross : cross2 (vsub2 b a) (vsub2 d c) = 0 := by
    have key : (tQ - tP) * ((uQ - uP) * cross2 (vsub2 b a) (vsub2 d c)) = 0 := by
      simp only [cross2, vsub2]
      linear_combination ((uQ - uP) * (d.2 - c.2)) * d1 - ((uQ - uP) * (d.1 - c.1)) * d2
    rcases mul_eq_zero.mp key with h | h
    · exact absurd h hδt
    · rcases mul_eq_zero.mp h with h' | h'
      · exact absurd h' hδu
      · exact h'
  have hcross' : (b.1 - a.1) * (d.2 - c.2) - (b.2 - a.2) * (d.1 - c.1) = 0 := by
    simpa [cross2, vsub2] using hcross
  have hqp : cross2 (vsub2 c a) (vsub2 b a) = 0 := by
    simp only [cross2, vsub2]
    linear_combination (-(b.2 - a.2)) * EP1 + (b.1 - a.1) * EP2 + uP * hcross'
  -- the squared length of the direction of segment a-b is positive
  have hdrr : 0 < dot2 (vsub2 b a) (vsub2 b a) := by
    have h1 : b.1 - a.1 ≠ 0 ∨ b.2 - a.2 ≠ 0 := by
      by_contra hcon
      push_neg at hcon
      exact hrne ⟨hcon.1, hcon.2⟩
    simp only [dot2, vsub2]
    rcases h1 with h1 | h1
    · nlinarith [mul_self_nonneg (b.2 - a.2), mul_self_pos.mpr h1]
    · nlinarith [mul_self_nonneg (b.1 - a.1), mul_self_pos.mpr h1]
  -- multiplicative form of the parameters of P and Q along segment a-b
  have MP : tP * dot2 (vsub2 b a) (vsub2 b a) =
      dot2 (vsub2 c a) (vsub2 b a) +
        uP * (dot2 (vsub2 d a) (vsub2 b a) - dot2 (vsub2 c a) (vsub2 b a)) := by
    simp only [dot2, vsub2]
    linear_combination (b.1 - a.1) * EP1 + (b.2 - a.2) * EP2
  have MQ : tQ * dot2 (vsub2 b a) (vsub2 b a) =
      dot2 (vsub2 c a) (vsub2 b a) +
        uQ * (dot2 (vsub2 d a) (vsub2 b a) - dot2 (vsub2 c a) (vsub2 b a)) := by
    simp only [dot2, vsub2]
    linear_combination (b.1 - a.1) * EQ1 + (b.2 - a.2) * EQ2
  have hPt : tP = dot2 (vsub2 c a) (vsub2 b a) / dot2 (vsub2 b a) (vsub2 b a) +
      uP * (dot2 (vsub2 d a) (vsub2 b a) / dot2 (vsub2 b a) (vsub2 b a) -
        dot2 (vsub2 c a) (vsub2 b a) / dot2 (vsub2 b a) (vsub2 b a)) := by
    field_simp
    linear_combination MP
  have hQt : tQ = dot2 (vsub2 c a) (vsub2 b a) / dot2 (vsub2 b a) (vsub2 b a) +
      uQ * (dot2 (vsub2 d a) (vsub2 b a) / dot2 (vsub2 b a) (vsub2 b a) -
        dot2 (vsub2 c a) (vsub2 b a) / dot2 (vsub2 b a) (vsub2 b a)) := by
    field_simp
    linear_combination MQ
  obtain ⟨hPlo, hPhi⟩ := between_of_convex _ _ tP uP huP0 huP1 hPt
  obtain ⟨hQlo, hQhi⟩ := between_of_convex _ _ tQ uQ huQ0 huQ1 hQt
  have hlohi :
      max 0 (min (dot2 (vsub2 c a) (vsub2 b a) / dot2 (vsub2 b a) (vsub2 b a))
          (dot2 (vsub2 d a) (vsub2 b a) / dot2 (vsub2 b a) (vsub2 b a))) <
        min 1 (max (dot2 (vsub2 c a) (vsub2 b a) / dot2 (vsub2 b a) (vsub2 b a))
          (dot2 (vsub2 d a) (vsub2 b a) / dot2 (vsub2 b a) (vsub2 b a))) := by
    rcases lt_or_gt_of_ne hδt with h | h
    · have h' : tQ < tP := by linarith
      exact lt_of_le_of_lt (max_le (by linarith) (by linarith))
        (lt_of_lt_of_le h' (le_min (by linarith) (by linarith)))
    · have h' : tP < tQ := by linarith
      exact lt_of_le_of_lt (max_le (by linarith) (by linarith))
        (lt_of_lt_of_le h' (le_min (by linarith) (by linarith)))
  simp only [segIntersection]
  rw [if_neg (by simpa using hcross), if_neg (by simpa using hqp),
    if_neg (by simp only [vsub2, Prod.mk.injEq]; rintro ⟨⟨h1, h2⟩, _⟩; exact hrne ⟨h1, h2⟩)]
  rw [if_neg (by simp only [vsub2, Prod.mk.injEq]; exact hrne),
    if_neg (by simp only [vsub2, Prod.mk.injEq]; exact hsne)]
  rw [if_neg (lt_asymm hlohi), if_neg (ne_of_gt hlohi)]

end SegGeometry

section Parans

/-- Paran feature of line_parans.py: a constant-latitude line across the
globe together with the intersection point, the two contributing source
line identifiers and a text label (the GeoJSON `type` property is stored
as `feature_type`). -/
structure ParanFeature where
  geometry : List (ℚ × ℚ)
  intersection_lat : ℚ
  intersection_lon : ℚ
  source_lines : List String
  label : String
  feature_type : String

/-- draw_lat_line (line_parans.py lines 10-15): a horizontal line across
the globe, one point per degree of longitude from -180 to 180. The source
takes a spacing argument that every call leaves at its default 1°. -/
def draw_lat_line (lat : ℚ) : List (ℚ × ℚ) :=
  (List.range 361).map (fun (i : ℕ) => ((i : ℚ) - 180, lat))

/-- Inner walk of the split of a Python string at its first underscore. -/
def splitUnderAux : List Char → Option (List Char × List Char)
  | [] => none
  | c :: cs =>
    if c = '_' then some ([], cs)
    else
      match splitUnderAux cs with
      | none => none
      | some (pre, post) => some (c :: pre, post)

/-- Python `name.split('_', 1)` guarded by `'_' in name` (line_parans.py
lines 30-31): `none` when the name has no underscore, otherwise the part
before the first underscore and the untouched remainder. -/
def split_first_under (name : String) : Option (String × String) :=
  match splitUnderAux name.data with
  | none => none
  | some (pre, post) => some (String.mk pre, String.mk post)

/-- Python slice `coords[::step]` for positive `step`: the elements at
indices 0, step, 2·step, …. -/
def everyNthAux (step : ℕ) : List (ℚ × ℚ) → ℕ → List (ℚ × ℚ)
  | [], _ => []
  | x :: xs, 0 => x :: everyNthAux step xs (step - 1)
  | _ :: xs, Nat.succ k => everyNthAux step xs k

def everyNth (l : List (ℚ × ℚ)) (step : ℕ) : List (ℚ × ℚ) :=
  everyNthAux step l 0

/-- Insert-or-replace in an association list, keeping the original key
position on replacement and appending new keys at the end — Python dict
assignment semantics. -/
def alistSet {β : Type} (m : List (String × β)) (k : String) (v : β) :
    List (String × β) :=
  match m with
  | [] => [(k, v)]
  | (k', v') :: rest => if k' = k then (k, v) :: rest else (k', v') :: alistSet rest k v

def alistGet {β : Type} (m : List (String × β)) (k : String) : Option β :=
  match m with
  | [] => none
  | (k', v') :: rest => if k' = k then some v' else alistGet rest k

/-- Build `line_map` (line_parans.py lines 28-35): keep only names of the
form `planet_TYPE` with TYPE among AC/DC/MC/IC, downsample each line to
roughly 180 points, and group by planet then line type. -/
def buildLineMap (aspect_lines : List (String × List (ℚ × ℚ))) :
    List (String × List (String × List (ℚ × ℚ))) :=
  aspect_lines.foldl
    (fun m nv =>
      match split_first_under nv.1 with
      | none => m
      | some (planet, ltype) =>
        if ltype = "AC" ∨ ltype = "DC" ∨ ltype = "MC" ∨ ltype = "IC" then
          alistSet m planet
            (alistSet ((alistGet m planet).getD [])
              ltype (everyNth nv.2 (max 1 (nv.2.length / 180))))
        else m)
    []

/-- Minimum latitude of a line (`min(pt[1] for pt in coords)`). -/
def latMin (c : List (ℚ × ℚ)) : ℚ :=
  c.foldl (fun m p => min m p.2) (c.headD (0, 0)).2

/-- Maximum latitude of a line (`max(pt[1] for pt in coords)`). -/
def latMax (c : List (ℚ × ℚ)) : ℚ :=
  c.foldl (fun m p => max m p.2) (c.headD (0, 0)).2

/-- Body of the innermost loops of find_line_crossings_and_latitude_lines
(line_parans.py lines 74-96): a paran feature is produced for a segment
pair exactly when the intersection is a Point within the ±68° band. -/
def segment_pair_feature (p1 l1 p2 l2 : String) (sa sb : (ℚ × ℚ) × (ℚ × ℚ)) :
    Option ParanFeature :=
  match segIntersection sa.1 sa.2 sb.1 sb.2 with
  | SegInter.point pt =>
    if |pt.2| > 68 then none
    else
      some
        { geometry := draw_lat_line pt.2
          intersection_lat := pt.2
          intersection_lon := pt.1
          source_lines := [p1 ++ "_" ++ l1, p2 ++ "_" ++ l2]
          label := p1 ++ " " ++ l1 ++ " crossing " ++ p2 ++ " " ++ l2
          feature_type := "crossing_latitude" }
  | _ => none

/-- Consecutive-point segments of a polyline. -/
def segPairs (coords : List (ℚ × ℚ)) : List ((ℚ × ℚ) × (ℚ × ℚ)) :=
  coords.zip coords.tail

/-- The two nested segment loops for one surviving candidate line pair. -/
def pair_features (p1 l1 p2 l2 : String) (c1 c2 : List (ℚ × ℚ)) :
    List ParanFeature :=
  (segPairs c1).flatMap (fun sa =>
    (segPairs c2).filterMap (fun sb => segment_pair_feature p1 l1 p2 l2 sa sb))

/-- find_line_crossings_and_latitude_lines (line_parans.py lines 18-99):
pair every planet's AC/DC line against every other planet's MC/IC line,
prefilter by latitude-range overlap and the ±68° band, and collect the
paran features of all intersecting segment pairs. -/
def find_line_crossings_and_latitude_lines
    (aspect_lines : List (String × List (ℚ × ℚ))) : List ParanFeature :=
  let line_map := buildLineMap aspect_lines
  line_map.enum.flatMap (fun ie =>
    line_map.enum.flatMap (fun je =>
      if ie.1 = je.1 then []
      else
        ["AC", "DC"].flatMap (fun l1 =>
          ["MC", "IC"].flatMap (fun l2 =>
            match alistGet ie.2.2 l1, alistGet je.2.2 l2 with
            | some c1, some c2 =>
              if c1 = [] ∨ c2 = [] then []
              else if latMax c1 < latMin c2 ∨ latMax c2 < latMin c1 then []
              else if latMax c1 < -68 ∨ latMin c1 > 68 then []
              else if latMax c2 < -68 ∨ latMin c2 > 68 then []
              else pair_features ie.2.1 l1 je.2.1 l2 c1 c2
            | _, _ => []))))

/-- C10: a paran feature is emitted for a segment pair only when the
intersection is a single point; two segments sharing two distinct points
(a collinear overlap, or any touching in more than one point) produce no
feature. -/
theorem paran_segment_overlap_not_emitted (p1 l1 p2 l2 : String)
    (sa sb : (ℚ × ℚ) × (ℚ × ℚ)) (P Q : ℚ × ℚ) (hPQ : P ≠ Q)
    (hP1 : OnSeg sa.1 sa.2 P) (hQ1 : OnSeg sa.1 sa.2 Q)
    (hP2 : OnSeg sb.1 sb.2 P) (hQ2 : OnSeg sb.1 sb.2 Q) :
    segment_pair_feature p1 l1 p2 l2 sa sb = none := by
  simp only [segment_pair_feature,
    segIntersection_overlap_of_two_points sa.1 sa.2 sb.1 sb.2 P Q hPQ hP1 hQ1 hP2 hQ2]

/-- C10 witness: the collinear segments (0,0)-(10,10) and (5,5)-(15,15)
overlap in more than one point, and no paran feature is emitted. -/
theorem paran_segment_overlap_not_emitted_witness :
    ((5 : ℚ), (5 : ℚ)) ≠ ((10 : ℚ), (10 : ℚ)) ∧
      segment_pair_feature "A" "AC" "B" "MC" (((0 : ℚ), (0 : ℚ)), ((10 : ℚ), (10 : ℚ)))
        (((5 : ℚ), (5 : ℚ)), ((15 : ℚ), (15 : ℚ))) = none :=
  ⟨by norm_num [Prod.ext_iff],
    paran_segment_overlap_not_emitted "A" "AC" "B" "MC" _ _ (5, 5) (10, 10)
      (by norm_num [Prod.ext_iff])
      ⟨1 / 2, by norm_num, by norm_num, by norm_num [Prod.ext_iff]⟩
      ⟨1, by norm_num, by norm_num, by norm_num [Prod.ext_iff]⟩
      ⟨0, by norm_num, by norm_num, by norm_num [Prod.ext_iff]⟩
      ⟨1 / 2, by norm_num, by norm_num, by norm_num [Prod.ext_iff]⟩⟩

theorem draw_lat_line_snd (lat : ℚ) :
    (draw_lat_line lat).map Prod.snd = List.replicate 361 lat := by
  have h : ∀ b ∈ (draw_lat_line lat).map Prod.snd, b = lat := by
    intro b hb
    simp only [draw_lat_line, List.map_map, List.mem_map, Function.comp] at hb
    obtain ⟨i, _, hi⟩ := hb
    exact hi.symm
  have hlen : ((draw_lat_line lat).map Prod.snd).length = 361 := by
    simp [draw_lat_line]
  rw [← hlen]
  exact List.eq_replicate_of_mem h

theorem draw_lat_line_snd_length (lat : ℚ) :
    ((draw_lat_line lat).map Prod.snd).length = 361 := by
  simp [draw_lat_line]

theorem draw_lat_line_fst (lat : ℚ) :
    (draw_lat_line lat).map Prod.fst = (List.range 361).map (fun (i : ℕ) => (i : ℚ) - 180) := by
  simp [draw_lat_line, List.map_map, Function.comp]

theorem mem_pair_features {p1 l1 p2 l2 : String} {c1 c2 : List (ℚ × ℚ)}
    {f : ParanFeature} (hf : f ∈ pair_features p1 l1 p2 l2 c1 c2) :
    |f.intersection_lat| ≤ 68 ∧
      f.geometry = draw_lat_line f.intersection_lat ∧
      f.source_lines = [p1 ++ "_" ++ l1, p2 ++ "_" ++ l2] ∧
      f.label = p1 ++ " " ++ l1 ++ " crossing " ++ p2 ++ " " ++ l2 := by
  simp only [pair_features, List.mem_flatMap] at hf
  obtain ⟨sa, _, hf⟩ := hf
  rw [List.mem_filterMap] at hf
  obtain ⟨sb, _, hf⟩ := hf
  unfold segment_pair_feature at hf
  split at hf
  · rename_i pt hpt
    split at hf
    · exact absurd hf (by simp)
    · rename_i hband
      push_neg at hband
      injection hf with hf
      rw [← hf]
      exact ⟨hband, rfl, rfl, rfl⟩
  · exact absurd hf (by simp)

/-- C7: every paran feature emitted by the finder has its intersection
latitude inside the ±68° operational band, its geometry is the horizontal
line at that latitude spanning longitudes -180..180 (one point per
degree), and it is labeled with both contributing (body, kind)
identifiers, the first of kind AC/DC and the second of kind MC/IC. -/
theorem paran_features_banded (aspect_lines : List (String × List (ℚ × ℚ)))
    (f : ParanFeature) (hf : f ∈ find_line_crossings_and_latitude_lines aspect_lines) :
    |f.intersection_lat| ≤ 68 ∧
      f.geometry = draw_lat_line f.intersection_lat ∧
      f.geometry.map Prod.snd = List.replicate 361 f.intersection_lat ∧
      f.geometry.map Prod.fst = (List.range 361).map (fun (i : ℕ) => (i : ℚ) - 180) ∧
      ∃ p1 l1 p2 l2 : String, (l1 = "AC" ∨ l1 = "DC") ∧ (l2 = "MC" ∨ l2 = "IC") ∧
        f.source_lines = [p1 ++ "_" ++ l1, p2 ++ "_" ++ l2] := by
  simp only [find_line_crossings_and_latitude_lines, List.mem_flatMap] at hf
  obtain ⟨ie, _, hf⟩ := hf
  obtain ⟨je, _, hf⟩ := hf
  split at hf
  · exact absurd hf (by simp)
  rw [List.mem_flatMap] at hf
  obtain ⟨l1, hl1, hf⟩ := hf
  rw [List.mem_flatMap] at hf
  obtain ⟨l2, hl2, hf⟩ := hf
  split at hf
  case _ c1 c2 _ =>
    split at hf
    · exact absurd hf (by simp)
    split at hf
    · exact absurd hf (by simp)
    split at hf
    · exact absurd hf (by simp)
    split at hf
    · exact absurd hf (by simp)
    obtain ⟨hband, hgeo, hsrc, _⟩ := mem_pair_features hf
    refine ⟨hband, hgeo, ?_, ?_, ie.2.1, l1, je.2.1, l2, ?_, ?_, hsrc⟩
    · rw [hgeo]; exact draw_lat_line_snd _
    · rw [hgeo]; exact draw_lat_line_fst _
    · simpa using hl1
    · simpa using hl2
  case _ =>
    exact absurd hf (by simp)

/-- Concrete input for the C7 witness: an AC line of body A and an MC line
of body B crossing at (10°, 30°). -/
def paranWitnessInput : List (String × List (ℚ × ℚ)) :=
  [("A_AC", [((0 : ℚ), (20 : ℚ)), ((20 : ℚ), (40 : ℚ))]),
   ("B_MC", [((0 : ℚ), (40 : ℚ)), ((20 : ℚ), (20 : ℚ))])]

/-- The single paran feature the finder produces for `paranWitnessInput`. -/
def paranWitnessFeature : ParanFeature :=
  { geometry := draw_lat_line 30
    intersection_lat := 30
    intersection_lon := 10
    source_lines := ["A_AC", "B_MC"]
    label := "A AC crossing B MC"
    feature_type := "crossing_latitude" }

theorem paran_features_banded_witness :
    paranWitnessFeature ∈ find_line_crossings_and_latitude_lines paranWitnessInput ∧
      |paranWitnessFeature.intersection_lat| ≤ 68 ∧
      paranWitnessFeature.geometry = draw_lat_line paranWitnessFeature.intersection_lat ∧
      paranWitnessFeature.geometry.map Prod.snd =
        List.replicate 361 paranWitnessFeature.intersection_lat ∧
      paranWitnessFeature.geometry.map Prod.fst =
        (List.range 361).map (fun (i : ℕ) => (i : ℚ) - 180) ∧
      ∃ p1 l1 p2 l2 : String, (l1 = "AC" ∨ l1 = "DC") ∧ (l2 = "MC" ∨ l2 = "IC") ∧
        paranWitnessFeature.source_lines = [p1 ++ "_" ++ l1, p2 ++ "_" ++ l2] := by
  have hlm : (buildLineMap paranWitnessInput).enum =
      [(0, ("A", [("AC", [((0 : ℚ), (20 : ℚ)), ((20 : ℚ), (40 : ℚ))])])),
       (1, ("B", [("MC", [((0 : ℚ), (40 : ℚ)), ((20 : ℚ), (20 : ℚ))])]))] := rfl
  have heq : find_line_crossings_and_latitude_lines paranWitnessInput =
      [paranWitnessFeature] := by
    simp only [find_line_crossings_and_latitude_lines, hlm]
    norm_num +decide [alistGet, latMin, latMax, pair_features, segPairs, segment_pair_feature,
      segIntersection, cross2, dot2, vsub2, paranWitnessFeature, min_def, max_def,
      List.zip_cons_cons, List.filterMap_cons, List.filterMap_nil]
  have hmem : paranWitnessFeature ∈ find_line_crossings_and_latitude_lines paranWitnessInput := by
    rw [heq]; exact List.mem_singleton_self _
  exact ⟨hmem, paran_features_banded paranWitnessInput paranWitnessFeature hmem⟩

end Parans

section AscAspect

/-- Longitude bracket of the per-latitude root solve
(line_aspects.py lines 241-254): ±10° around the previous latitude's
solution when one exists, clamped to ±180; the full ±180° range otherwise. -/
def bracket_of (prev : Option ℚ) : ℚ × ℚ :=
  match prev with
  | some p => (max (-180) (p - 10), min 180 (p + 10))
  | none => (-180, 180)

/-- The 20-iteration bisection loop (line_aspects.py lines 266-285),
carrying the current bracket and its residuals. A midpoint whose residual
is below the tolerance ends the loop; if the iteration budget runs out,
the current midpoint is accepted regardless of its residual
(`if not found_solution: solution_lon = 0.5 * (lon_start + lon_end)`). -/
def bisectLoop (f : ℚ → ℚ) (tol : ℚ) : ℕ → ℚ → ℚ → ℚ → ℚ → ℚ
  | 0, s, e, _, _ => (s + e) / 2
  | Nat.succ n, s, e, fs, fe =>
    let mid := (s + e) / 2
    let fm := f mid
    if |fm| < tol then mid
    else if fs * fm < 0 then bisectLoop f tol n s mid fs fm
    else bisectLoop f tol n mid e fm fe

/-- First index of the minimal element (numpy.argmin). -/
def argminAux : List ℚ → ℚ → ℕ → ℕ → ℕ
  | [], _, best, _ => best
  | x :: xs, bv, best, i =>
    if x < bv then argminAux xs x i (i + 1) else argminAux xs bv best (i + 1)

def argminIdx : List ℚ → ℕ
  | [] => 0
  | x :: xs => argminAux xs x 0 1

/-- Clamped grid residuals of the coarse 73-point search
(line_aspects.py lines 290-296). -/
def gridResiduals (f : ℚ → ℚ) : List ℚ :=
  (linspace (-180) 180 73).map (fun l => if |f l| < 1000 then |f l| else 1000)

/-- Per-latitude solve of _generate_asc_aspect_line (line_aspects.py lines
241-308), with the residual of the external house-cusp boundary modelled
as the total rational function `f`. Bisection runs when the bracket
endpoints show a residual sign change with both residuals finite
(< 1000); otherwise the grid search accepts its minimal residual when it
is below 1°. The returned solution longitude is wrapped to [-180, 180). -/
def solve_lat (f : ℚ → ℚ) (prev : Option ℚ) : Option ℚ :=
  let lon_start := (bracket_of prev).1
  let lon_end := (bracket_of prev).2
  let fs := f lon_start
  let fe := f lon_end
  let sol :=
    if fs * fe ≤ 0 ∧ |fs| < 1000 ∧ |fe| < 1000 then
      some (bisectLoop f (1 / 100) 20 lon_start lon_end fs fe)
    else
      let residuals := gridResiduals f
      if residuals.getD (argminIdx residuals) 1000 < 1 then
        some ((linspace (-180) 180 73).getD (argminIdx residuals) 0)
      else none
  sol.map wrap180

/-- Latitude scan of _generate_asc_aspect_line (line_aspects.py lines
220-316): thread the previous (wrapped) solution as the next bracket
seed, collect (lon, lat) anchors for solved latitudes, and reset the seed
when a latitude is skipped (`prev_lon = None`). -/
def asc_scan (F : ℚ → ℚ → ℚ) : List ℚ → Option ℚ → List (ℚ × ℚ)
  | [], _ => []
  | lat :: rest, prev =>
    match solve_lat (F lat) prev with
    | some lon => (lon, lat) :: asc_scan F rest (some lon)
    | none => asc_scan F rest none

/-- C3 counterexample: for the step residual `-100 below 0°, +100 at and
above 0°` the residual is 100 in absolute value at every longitude, so no
solution within the 0.01° tolerance exists anywhere; yet the full-bracket
bisection exhausts its 20 iterations, accepts the final midpoint, and a
point is emitted for the latitude — so "a latitude is skipped if and only
if no solution is found within the 0.01° tolerance" fails in the only-if
direction: the emitted point's own residual is 100. -/
theorem asc_scan_tolerance_counterexample :
    (asc_scan (fun _ lon => if lon < 0 then (-100 : ℚ) else 100) [0] none).length = 1 ∧
      ¬ |(fun (_ : ℚ) (lon : ℚ) => if lon < 0 then (-100 : ℚ) else 100) 0
          ((asc_scan (fun _ lon => if lon < 0 then (-100 : ℚ) else 100) [0] none).headD
            (0, 0)).1| < 1 / 100 := by
  have hsol : ∃ x, solve_lat (fun lon => if lon < 0 then (-100 : ℚ) else 100) none =
      some x := by
    rw [solve_lat]
    simp only [bracket_of]
    rw [if_pos (by norm_num)]
    exact ⟨_, rfl⟩
  obtain ⟨x, hx⟩ := hsol
  have hscan : asc_scan (fun _ lon => if lon < 0 then (-100 : ℚ) else 100) [0] none =
      [(x, 0)] := by
    simp only [asc_scan]
    rw [hx]
  rw [hscan]
  refine ⟨rfl, ?_⟩
  simp only [List.headD_cons]
  by_cases hlt : x < 0 <;> simp [hlt] <;> norm_num

/-- C3 amended: a latitude is skipped by the ASC-relative per-latitude
solve if and only if the single chosen bracket — ±10° around the previous
solution when one exists, the full ±180° otherwise — shows no usable
residual sign change, and the 73-point grid search's minimal clamped
residual is at least 1°. In particular bisection, once entered, always
emits (accepting the final midpoint even when the 0.01° tolerance was
never met), the full ±180° bracket is never retried after a failed narrow
bracket, and the grid fallback accepts at 1°, not at the tolerance. -/
theorem solve_lat_skip_iff (f : ℚ → ℚ) (prev : Option ℚ) :
    solve_lat f prev = none ↔
      ¬ (f (bracket_of prev).1 * f (bracket_of prev).2 ≤ 0 ∧
          |f (bracket_of prev).1| < 1000 ∧ |f (bracket_of prev).2| < 1000) ∧
        ¬ (gridResiduals f).getD (argminIdx (gridResiduals f)) 1000 < 1 := by
  unfold solve_lat
  by_cases hgate : f (bracket_of prev).1 * f (bracket_of prev).2 ≤ 0 ∧
      |f (bracket_of prev).1| < 1000 ∧ |f (bracket_of prev).2| < 1000
  · simp [hgate]
  · by_cases hgrid : (gridResiduals f).getD (argminIdx (gridResiduals f)) 1000 < 1
    · simp [hgate, hgrid]
    · simp [hgate, hgrid]

end AscAspect

section Spline

variable {α : Type*} [LinearOrderedField α] [FloorRing α]

/-- External boundaries of spline_utils.py: the pyproj geodesic distance
(`geod.inv`, returning the forward distance between two lon/lat points)
and the scipy spline solver (`splprep`/`splev`), modelled as an abstract
success flag `ok` and an abstract evaluator `eval` of the curve fitted
with periodicity flag, parameter values and anchor points. -/
structure SplineBoundary (α : Type*) where
  dist : (α × α) → (α × α) → α
  ok : Bool → List α → List (α × α) → Bool
  eval : Bool → List α → List (α × α) → α → α × α

/-- Cumulative geodesic distances along a point sequence
(spline_utils.py lines 38-42 and 60-64): `dists[0] = 0`,
`dists[i] = dists[i-1] + dist(p[i-1], p[i])`. -/
def cumDistsAux (B : SplineBoundary α) (prev : α × α) (acc : α) :
    List (α × α) → List α
  | [] => []
  | p :: ps => (acc + B.dist prev p) :: cumDistsAux B p (acc + B.dist prev p) ps

def cumDists (B : SplineBoundary α) : List (α × α) → List α
  | [] => []
  | p :: ps => 0 :: cumDistsAux B p 0 ps

/-- Check `np.all(np.diff(dists) >= 0)`. -/
def diffsNonneg : List α → Bool
  | a :: b :: rest => if 0 ≤ b - a then diffsNonneg (b :: rest) else false
  | _ => true

/-- Lexicographic order on (dist, lon, lat) triples: the sort key of
`np.lexsort((lats, lons, dists))`, whose last key is primary. -/
def lexKeyLe (x y : α × α × α) : Prop :=
  x.1 < y.1 ∨ (x.1 = y.1 ∧ (x.2.1 < y.2.1 ∨ (x.2.1 = y.2.1 ∧ x.2.2 ≤ y.2.2)))

instance lexKeyLe_decidable (x y : α × α × α) : Decidable (lexKeyLe x y) := by
  unfold lexKeyLe
  infer_instance

/-- Stable insertion into a lexicographically sorted list. -/
def insertLex (x : α × α × α) : List (α × α × α) → List (α × α × α)
  | [] => [x]
  | y :: ys => if lexKeyLe x y then x :: y :: ys else y :: insertLex x ys

/-- Stable insertion sort by the lexsort key. -/
def sortLex : List (α × α × α) → List (α × α × α)
  | [] => []
  | x :: xs => insertLex x (sortLex xs)

/-- Defensive reorder of spline_utils.py lines 36-47: when the cumulative
distances over the raw input are not monotone (possible only when the
distance boundary returns a negative value), the points are stably sorted
by (distance, longitude, latitude). -/
def resort (B : SplineBoundary α) (lons lats : List α) : List α × List α :=
  if 1 < lons.length then
    let dists := cumDists B (lons.zip lats)
    if diffsNonneg dists then (lons, lats)
    else
      let sorted := sortLex (dists.zip (lons.zip lats))
      (sorted.map (fun t => t.2.1), sorted.map (fun t => t.2.2))
  else (lons, lats)

/-- Fit inputs of spline_utils.py lines 52-76 for the (already reordered,
nonempty) input: unwrap the longitudes, normalise the cumulative
distances (uniform when the total is zero), detect periodicity from the
unwrapped endpoint difference, and append the synthetic closing point
when periodic. Returns (lons_fit, lats_fit, dists_fit, per). The source
also computes an unwrapped copy of the latitudes that it never uses. -/
def spline_prep (B : SplineBoundary α) (lons lats : List α) :
    List α × List α × List α × Bool :=
  let lons_unwrapped := unwrapDeg lons
  let _lats_unwrapped := unwrapDeg lats
  let dists1 := cumDists B (lons_unwrapped.zip lats)
  let dists :=
    if dists1.getLastD 0 = 0 then linspace 0 1 lons_unwrapped.length
    else dists1.map (fun d => d / dists1.getLastD 0)
  let per := decide (|lons_unwrapped.getLastD 0 - lons_unwrapped.headD 0| > 300)
  (if per then lons_unwrapped ++ [lons_unwrapped.headD 0] else lons_unwrapped,
   if per then lats ++ [lats.headD 0] else lats,
   if per then dists ++ [1] else dists,
   per)

/-- Linear fallback of spline_utils.py (lines 82-86 and 98-102): numpy
interpolation of the fit arrays over uniform nodes, with the longitudes
wrapped to [-180, 180). -/
def spline_linear_fallback (lons_fit lats_fit : List α) (density : ℕ) :
    List α × List α :=
  ((linspace 0 1 density).map
      (fun u => wrap180 (npInterp (linspace 0 1 lons_fit.length) lons_fit u)),
    (linspace 0 1 density).map
      (fun u => npInterp (linspace 0 1 lats_fit.length) lats_fit u))

/-- Main path of parametric_spline after the early exit (spline_utils.py
lines 52-102), for the already reordered input. -/
def spline_main (B : SplineBoundary α) (lons lats : List α) (density : ℕ) :
    List α × List α :=
  let prep := spline_prep B lons lats
  let lons_fit := prep.1
  let lats_fit := prep.2.1
  let dists_fit := prep.2.2.1
  let per := prep.2.2.2
  if lons_fit.length < 4 then
    if lons_fit.length = 1 then (lons_fit, lats_fit)
    else spline_linear_fallback lons_fit lats_fit density
  else if B.ok per dists_fit (lons_fit.zip lats_fit) then
    ((linspace 0 1 density).map
        (fun u => wrap180 (B.eval per dists_fit (lons_fit.zip lats_fit) u).1),
      (linspace 0 1 density).map
        (fun u => (B.eval per dists_fit (lons_fit.zip lats_fit) u).2))
  else
    if lons_fit.length = 1 then (lons_fit, lats_fit)
    else spline_linear_fallback lons_fit lats_fit density

/-- parametric_spline (spline_utils.py lines 14-102), with the pyproj and
scipy boundaries supplied by `B`. Longitudes of every returned path are
wrapped to [-180, 180); latitudes are returned as produced by the spline
evaluator or the linear fallback, with no clamping. -/
def parametric_spline (B : SplineBoundary α) (lons0 lats0 : List α)
    (density : ℕ) : List α × List α :=
  let rl := resort B lons0 lats0
  if rl.1.length = 0 ∨ rl.2.length = 0 ∨ rl.1.length ≠ rl.2.length then ([], [])
  else spline_main B rl.1 rl.2 density

theorem cumDistsAux_length (B : SplineBoundary α) (prev : α × α) (acc : α)
    (l : List (α × α)) : (cumDistsAux B prev acc l).length = l.length := by
  induction l generalizing prev acc with
  | nil => rfl
  | cons p ps ih => simp [cumDistsAux, ih]

theorem cumDists_length (B : SplineBoundary α) (l : List (α × α)) :
    (cumDists B l).length = l.length := by
  cases l with
  | nil => rfl
  | cons p ps => simp [cumDists, cumDistsAux_length]

theorem insertLex_length (x : α × α × α) (l : List (α × α × α)) :
    (insertLex x l).length = l.length + 1 := by
  induction l with
  | nil => rfl
  | cons y ys ih => by_cases h : lexKeyLe x y <;> simp [insertLex, h, ih]

theorem sortLex_length (l : List (α × α × α)) : (sortLex l).length = l.length := by
  induction l with
  | nil => rfl
  | cons x xs ih => simp [sortLex, insertLex_length, ih]

theorem mem_insertLex {x y : α × α × α} {l : List (α × α × α)}
    (h : y ∈ insertLex x l) : y = x ∨ y ∈ l := by
  induction l with
  | nil => simpa [insertLex] using h
  | cons z zs ih =>
    rw [insertLex] at h
    by_cases hz : lexKeyLe x z
    · rw [if_pos hz] at h
      rcases List.mem_cons.mp h with h | h
      · exact Or.inl h
      · exact Or.inr h
    · rw [if_neg hz] at h
      rcases List.mem_cons.mp h with h | h
      · exact Or.inr (by simp [h])
      · rcases ih h with h' | h'
        · exact Or.inl h'
        · exact Or.inr (by simp [h'])

theorem mem_sortLex {y : α × α × α} {l : List (α × α × α)}
    (h : y ∈ sortLex l) : y ∈ l := by
  induction l with
  | nil => simpa [sortLex] using h
  | cons x xs ih =>
    rcases mem_insertLex (by simpa [sortLex] using h) with h' | h'
    · simp [h']
    · simp [ih h']

theorem resort_fst_length (B : SplineBoundary α) (lons lats : List α)
    (hlen : lons.length = lats.length) :
    (resort B lons lats).1.length = lons.length := by
  unfold resort
  split
  · by_cases hd : diffsNonneg (cumDists B (lons.zip lats)) = true
    · simp [hd]
    · simp [hd, sortLex_length, cumDists_length, hlen]
  · rfl

theorem resort_snd_length (B : SplineBoundary α) (lons lats : List α)
    (hlen : lons.length = lats.length) :
    (resort B lons lats).2.length = lats.length := by
  unfold resort
  split
  · by_cases hd : diffsNonneg (cumDists B (lons.zip lats)) = true
    · simp [hd]
    · simp [hd, sortLex_length, cumDists_length, hlen]
  · rfl

theorem resort_snd_mem (B : SplineBoundary α) (lons lats : List α) :
    ∀ y ∈ (resort B lons lats).2, y ∈ lats := by
  unfold resort
  split
  · by_cases hd : diffsNonneg (cumDists B (lons.zip lats)) = true
    · simp only [hd, if_true]
      exact fun y hy => hy
    · simp only [hd, if_false, Bool.false_eq_true]
      intro y hy
      simp only [List.mem_map] at hy
      obtain ⟨t, ht, rfl⟩ := hy
      obtain ⟨d, x, z⟩ := t
      have hmem := mem_sortLex ht
      exact (List.of_mem_zip (List.of_mem_zip hmem).2).2
  · exact fun y hy => hy

theorem npInterpGo_abs_le (C x : α) (hC : 0 ≤ C) :
    ∀ (xs fs : List α) (x0 f0 : α), List.Chain' (· < ·) (x0 :: xs) → x0 < x →
      |f0| ≤ C → (∀ v ∈ fs, |v| ≤ C) → |npInterpGo x0 f0 xs fs x| ≤ C := by
  intro xs
  induction xs with
  | nil =>
    intro fs x0 f0 _ _ hf0 _
    cases fs <;> simpa [npInterpGo] using hf0
  | cons x1 xs ih =>
    intro fs x0 f0 hchain hx0 hf0 hfs
    cases fs with
    | nil => simpa [npInterpGo] using hf0
    | cons f1 fs =>
      have hx01 : x0 < x1 := (List.chain'_cons.mp hchain).1
      by_cases hx1 : x ≤ x1
      · rw [npInterpGo, if_pos hx1]
        have hd : 0 < x1 - x0 := by linarith
        have ht0 : 0 ≤ (x - x0) / (x1 - x0) := by
          apply div_nonneg <;> linarith
        have ht1 : (x - x0) / (x1 - x0) ≤ 1 := by
          rw [div_le_one hd]
          linarith
        have hf1 : |f1| ≤ C := hfs f1 (by simp)
        rw [abs_le] at hf0 hf1 ⊢
        have heq : f0 + (f1 - f0) * (x - x0) / (x1 - x0) =
            f0 + (f1 - f0) * ((x - x0) / (x1 - x0)) := by ring
        rw [heq]
        constructor <;> nlinarith [ht0, ht1, hf0.1, hf0.2, hf1.1, hf1.2]
      · rw [npInterpGo, if_neg hx1]
        exact ih fs x1 f1 (List.chain'_cons.mp hchain).2 (by linarith [lt_of_not_le hx1])
          (hfs f1 (by simp)) (fun v hv => hfs v (by simp [hv]))

theorem npInterp_abs_le (C x : α) (hC : 0 ≤ C) (xp fp : List α)
    (hchain : List.Chain' (· < ·) xp) (hfp : ∀ v ∈ fp, |v| ≤ C) :
    |npInterp xp fp x| ≤ C := by
  cases xp with
  | nil => cases fp <;> simpa [npInterp] using hC
  | cons x0 xs =>
    cases fp with
    | nil => simpa [npInterp] using hC
    | cons f0 fs =>
      rw [npInterp]
      by_cases hx : x ≤ x0
      · rw [if_pos hx]
        exact hfp f0 (by simp)
      · rw [if_neg hx]
        exact npInterpGo_abs_le C x hC xs fs x0 f0 hchain (lt_of_not_le hx)
          (hfp f0 (by simp)) (fun v hv => hfp v (by simp [hv]))

theorem linspace_chain_lt (n : ℕ) (h2 : 2 ≤ n) :
    List.Chain' (fun a b => a < b) (linspace (0 : α) 1 n) := by
  have hn1 : (0 : α) < (n : α) - 1 := by
    have h : (2 : α) ≤ (n : α) := by exact_mod_cast h2
    linarith
  have hnot : ¬ n ≤ 1 := by omega
  unfold linspace
  rw [List.chain'_map]
  have hp : List.Chain' (· < ·) (List.range n) :=
    (List.pairwise_lt_range n).chain'
  apply hp.imp
  intro i j hij
  simp only [hnot, if_false]
  have hij' : (i : α) < (j : α) := by exact_mod_cast hij
  have := (div_lt_div_iff_of_pos_right hn1).mpr
    (by nlinarith : (1 - 0 : α) * (i : α) < (1 - 0 : α) * (j : α))
  linarith [this]

theorem spline_prep_fst_length_ge (B : SplineBoundary α) (lons lats : List α) :
    lons.length ≤ (spline_prep B lons lats).1.length := by
  simp only [spline_prep]
  cases hd : decide (|(unwrapDeg lons).getLastD 0 - (unwrapDeg lons).headD 0| > 300) <;>
    simp [hd, unwrapDeg_length]

theorem spline_prep_snd_length_ge (B : SplineBoundary α) (lons lats : List α) :
    lats.length ≤ (spline_prep B lons lats).2.1.length := by
  simp only [spline_prep]
  cases hd : decide (|(unwrapDeg lons).getLastD 0 - (unwrapDeg lons).headD 0| > 300) <;>
    simp [hd]

theorem spline_prep_snd_mem (B : SplineBoundary α) (lons lats : List α)
    (hne : lats ≠ []) : ∀ y ∈ (spline_prep B lons lats).2.1, y ∈ lats := by
  have hhead : lats.headD 0 ∈ lats := by
    cases lats with
    | nil => exact absurd rfl hne
    | cons a as => simp
  simp only [spline_prep]
  cases hd : decide (|(unwrapDeg lons).getLastD 0 - (unwrapDeg lons).headD 0| > 300)
  · simp [hd]
  · simp only [hd, if_pos]
    intro y hy
    rcases List.mem_append.mp hy with h | h
    · exact h
    · cases lats with
      | nil => exact absurd rfl hne
      | cons a as =>
        simp at h
        simp [h]

theorem spline_linear_fallback_spec (lons_fit lats_fit : List α) (density : ℕ)
    (h2 : 2 ≤ lats_fit.length) (hmem : ∀ v ∈ lats_fit, |v| ≤ 90) :
    (spline_linear_fallback lons_fit lats_fit density).1.length = density ∧
      (spline_linear_fallback lons_fit lats_fit density).2.length = density ∧
      (∀ x ∈ (spline_linear_fallback lons_fit lats_fit density).1,
        -180 ≤ x ∧ x ≤ 180) ∧
      (∀ y ∈ (spline_linear_fallback lons_fit lats_fit density).2, |y| ≤ 90) := by
  refine ⟨by simp [spline_linear_fallback, linspace_length],
    by simp [spline_linear_fallback, linspace_length], ?_, ?_⟩
  · intro x hx
    simp only [spline_linear_fallback, List.mem_map] at hx
    obtain ⟨u, _, rfl⟩ := hx
    have h := wrap180_mem (npInterp (linspace 0 1 lons_fit.length) lons_fit u)
    exact ⟨h.1, le_of_lt (lt_of_lt_of_le h.2 (by norm_num))⟩
  · intro y hy
    simp only [spline_linear_fallback, List.mem_map] at hy
    obtain ⟨u, _, rfl⟩ := hy
    exact npInterp_abs_le 90 u (by norm_num) _ lats_fit
      (linspace_chain_lt lats_fit.length h2) hmem

theorem spline_main_spec (B : SplineBoundary α) (lons lats : List α)
    (density : ℕ) (hlen : lons.length = lats.length) (h2 : 2 ≤ lons.length)
    (hlat : ∀ y ∈ lats, |y| ≤ 90)
    (heval : ∀ per u pts x, |(B.eval per u pts x).2| ≤ 90) :
    (spline_main B lons lats density).1.length = density ∧
      (spline_main B lons lats density).2.length = density ∧
      (∀ x ∈ (spline_main B lons lats density).1, -180 ≤ x ∧ x ≤ 180) ∧
      (∀ y ∈ (spline_main B lons lats density).2, |y| ≤ 90) := by
  have hlats_ne : lats ≠ [] := by
    intro h
    rw [h, List.length_nil] at hlen
    omega
  have hfit1 : 2 ≤ (spline_prep B lons lats).1.length :=
    le_trans h2 (spline_prep_fst_length_ge B lons lats)
  have hfit2 : 2 ≤ (spline_prep B lons lats).2.1.length := by
    rw [hlen] at h2
    exact le_trans h2 (spline_prep_snd_length_ge B lons lats)
  have hfitmem : ∀ v ∈ (spline_prep B lons lats).2.1, |v| ≤ 90 :=
    fun v hv => hlat v (spline_prep_snd_mem B lons lats hlats_ne v hv)
  have hfb := spline_linear_fallback_spec (spline_prep B lons lats).1
    (spline_prep B lons lats).2.1 density hfit2 hfitmem
  simp only [spline_main]
  split
  · split
    · omega
    · exact hfb
  · split
    · refine ⟨by simp [linspace_length], by simp [linspace_length], ?_, ?_⟩
      · intro x hx
        simp only [List.mem_map] at hx
        obtain ⟨u, _, rfl⟩ := hx
        have h := wrap180_mem ((B.eval (spline_prep B lons lats).2.2.2
          (spline_prep B lons lats).2.2.1
          ((spline_prep B lons lats).1.zip (spline_prep B lons lats).2.1) u).1)
        exact ⟨h.1, le_of_lt (lt_of_lt_of_le h.2 (by norm_num))⟩
      · intro y hy
        simp only [List.mem_map] at hy
        obtain ⟨u, _, rfl⟩ := hy
        exact heval _ _ _ _
    · split
      · omega
      · exact hfb

/-- C5 amended: for every input of at least two points the fitter's output
has exactly `density` points in each coordinate array; every output
longitude is re-wrapped into [-180, 180]; and the output latitudes are the
interpolant's raw values — they lie in [-90, 90] whenever the external
spline evaluator's latitudes do (and on the linear-fallback path they
always stay within the input latitude range), but the code applies no
latitude clamping of its own. -/
theorem parametric_spline_output_spec (B : SplineBoundary α)
    (lons lats : List α) (density : ℕ) (hlen : lons.length = lats.length)
    (h2 : 2 ≤ lons.length) (hlat : ∀ y ∈ lats, |y| ≤ 90)
    (heval : ∀ per u pts x, |(B.eval per u pts x).2| ≤ 90) :
    (parametric_spline B lons lats density).1.length = density ∧
      (parametric_spline B lons lats density).2.length = density ∧
      (∀ x ∈ (parametric_spline B lons lats density).1, -180 ≤ x ∧ x ≤ 180) ∧
      (∀ y ∈ (parametric_spline B lons lats density).2, |y| ≤ 90) := by
  have hr1 := resort_fst_length B lons lats hlen
  have hr2 := resort_snd_length B lons lats hlen
  unfold parametric_spline
  rw [if_neg (by push_neg; refine ⟨by omega, by omega, by omega⟩)]
  exact spline_main_spec B (resort B lons lats).1 (resort B lons lats).2 density
    (by omega) (by omega) (fun y hy => hlat y (resort_snd_mem B lons lats y hy)) heval

/-- C6 amended: the curve is closed — the first point appended as a
synthetic closing point to the longitude, latitude and parameter arrays,
and the periodic flag passed to the fit — if and only if the absolute
difference between the last and first unwrapped longitudes exceeds 300°
(not the max-min span of the unwrapped longitudes). -/
theorem spline_prep_periodic_iff (B : SplineBoundary α) (lons lats : List α) :
    ((spline_prep B lons lats).2.2.2 = true ↔
      |(unwrapDeg lons).getLastD 0 - (unwrapDeg lons).headD 0| > 300) ∧
      (spline_prep B lons lats).1 =
        (if (spline_prep B lons lats).2.2.2 = true
         then unwrapDeg lons ++ [(unwrapDeg lons).headD 0] else unwrapDeg lons) ∧
      (spline_prep B lons lats).2.1 =
        (if (spline_prep B lons lats).2.2.2 = true
         then lats ++ [lats.headD 0] else lats) := by
  refine ⟨?_, ?_, ?_⟩
  · simp [spline_prep]
  · by_cases h : |(unwrapDeg lons).getLastD 0 - (unwrapDeg lons).headD 0| > 300 <;>
      simp [spline_prep, h]
  · by_cases h : |(unwrapDeg lons).getLastD 0 - (unwrapDeg lons).headD 0| > 300 <;>
      simp [spline_prep, h]

end Spline

/-- Trivial concrete spline boundary over ℚ (unit distances, successful
fit, constant evaluator) for concrete instantiations. -/
def B0q : SplineBoundary ℚ :=
  { dist := fun _ _ => 1, ok := fun _ _ _ => true, eval := fun _ _ _ _ => (0, 0) }

/-- Concrete spline boundary over ℚ whose evaluator returns latitude 91:
an admissible behaviour of the external spline solver (an interpolating
cubic through near-polar anchors can overshoot), which the fitter does
not clamp. -/
def B91 : SplineBoundary ℚ :=
  { dist := fun _ _ => 1, ok := fun _ _ _ => true, eval := fun _ _ _ _ => (0, 91) }

/-- C5 witness: a two-point path through valid latitudes, fitted to three
output points by the linear path, applying the output specification. -/
theorem parametric_spline_output_spec_witness :
    (([0, 1] : List ℚ).length = ([10, 20] : List ℚ).length ∧
        2 ≤ ([0, 1] : List ℚ).length) ∧
      (parametric_spline B0q [0, 1] [10, 20] 3).1.length = 3 ∧
        (parametric_spline B0q [0, 1] [10, 20] 3).2.length = 3 ∧
        (∀ x ∈ (parametric_spline B0q [0, 1] [10, 20] 3).1, -180 ≤ x ∧ x ≤ 180) ∧
        (∀ y ∈ (parametric_spline B0q [0, 1] [10, 20] 3).2, |y| ≤ 90) :=
  ⟨⟨by norm_num, by norm_num⟩,
    parametric_spline_output_spec B0q [0, 1] [10, 20] 3 (by norm_num) (by norm_num)
      (by intro y hy; simp at hy; rcases hy with rfl | rfl <;> norm_num)
      (by intro per u pts x; simp [B0q])⟩

/-- C5 counterexample: for a four-point input with all latitudes inside
[-90, 90], the spline path returns the evaluator's latitudes unclamped;
with the admissible overshooting evaluator `B91` every output latitude is
91, outside [-90, 90] — the fitter guarantees no latitude range of its
own. -/
theorem parametric_spline_lat_counterexample :
    (parametric_spline B91 ([0, 1, 2, 3] : List ℚ) [10, 11, 12, 13] 5).2 =
        [91, 91, 91, 91, 91] ∧
      ¬ |(91 : ℚ)| ≤ 90 := by
  constructor
  · norm_num [parametric_spline, spline_main, resort, spline_prep, cumDists,
      cumDistsAux, diffsNonneg, unwrapDeg, unwrapAux, unwrapStep, pymod,
      linspace, B91, List.range_succ]
  · norm_num

/-- C6 counterexample: the unwrapped longitudes [0, 170, 340, 170, 0]
contain the values 340 and 0, so the path's unwrapped longitude span
exceeds 300°, yet the path is not treated as periodic: the periodic flag
is false and no synthetic closing point is appended, because the code
compares only the first and last unwrapped longitudes. -/
theorem spline_periodic_span_counterexample :
    (340 : ℚ) ∈ unwrapDeg ([0, 170, 340, 170, 0] : List ℚ) ∧
      (0 : ℚ) ∈ unwrapDeg ([0, 170, 340, 170, 0] : List ℚ) ∧
      (340 : ℚ) - 0 > 300 ∧
      (spline_prep B0q ([0, 170, 340, 170, 0] : List ℚ) [10, 11, 12, 11, 10]).2.2.2 =
        false ∧
      (spline_prep B0q ([0, 170, 340, 170, 0] : List ℚ) [10, 11, 12, 11, 10]).1 =
        ([0, 170, 340, 170, 0] : List ℚ) := by
  have hu : unwrapDeg ([0, 170, 340, 170, 0] : List ℚ) = [0, 170, 340, 170, 0] := by
    norm_num [unwrapDeg, unwrapAux, unwrapStep, pymod]
  refine ⟨by rw [hu]; norm_num, by rw [hu]; norm_num, by norm_num, ?_, ?_⟩
  · simp only [spline_prep, hu]
    norm_num
  · simp only [spline_prep, hu]
    norm_num

section AspectMC

/-- numpy.deg2rad. -/
noncomputable def deg2rad (x : ℝ) : ℝ := x * (Real.pi / 180)

/-- numpy.rad2deg. -/
noncomputable def rad2deg (x : ℝ) : ℝ := x * (180 / Real.pi)

/-- numpy.arctan2(y, x): the angle of the planar point (x, y) in (-π, π]. -/
noncomputable def arctan2 (y x : ℝ) : ℝ := ((x : ℂ) + (y : ℂ) * Complex.I).arg

/-- ecl_lon_of_mc (line_aspects.py lines 59-68): ecliptic longitude of the
local meridian from Greenwich sidereal time, site longitude and true
obliquity, via `tan λ = tan θ · cos ε` with θ = GST + λ_geo. -/
noncomputable def ecl_lon_of_mc (gst_deg geo_lon_deg obliq : ℝ) : ℝ :=
  let lst := deg2rad (pymod (gst_deg + geo_lon_deg) 360)
  pymod (rad2deg (arctan2 (Real.sin lst * Real.cos obliq) (Real.cos lst))) 360

/-- geo_lon_for_mc (line_aspects.py lines 70-79): geographic longitude in
[-180, 180) whose Midheaven ecliptic longitude equals the target, the
inverse relation `tan θ = cos ε · tan λ`. -/
noncomputable def geo_lon_for_mc (target_ecl_lon gst_deg obliq : ℝ) : ℝ :=
  let lam := deg2rad target_ecl_lon
  let lst_deg := pymod (rad2deg (arctan2 (Real.cos obliq * Real.sin lam) (Real.cos lam))) 360
  pymod (lst_deg - gst_deg + 540) 360 - 180

theorem arctan2_sin_cos (a : ℝ) :
    arctan2 (Real.sin a) (Real.cos a) =
      a + 2 * Real.pi * ((⌊(Real.pi - a) / (2 * Real.pi)⌋ : ℤ) : ℝ) := by
  have h := Complex.arg_cos_add_sin_mul_I_sub a
  unfold arctan2
  have heq : ((Real.cos a : ℂ) + (Real.sin a : ℂ) * Complex.I) =
      Complex.cos (a : ℂ) + Complex.sin (a : ℂ) * Complex.I := by
    rw [Complex.ofReal_cos, Complex.ofReal_sin]
  rw [heq]
  linarith [h]

theorem rad2deg_arctan2_sin_cos_mod (x : ℝ) :
    pymod (rad2deg (arctan2 (Real.sin (deg2rad x)) (Real.cos (deg2rad x)))) 360 =
      pymod x 360 := by
  rw [arctan2_sin_cos (deg2rad x)]
  have hpi : Real.pi ≠ 0 := Real.pi_ne_zero
  have h2 : rad2deg (deg2rad x +
        2 * Real.pi * ((⌊(Real.pi - deg2rad x) / (2 * Real.pi)⌋ : ℤ) : ℝ)) =
      x + 360 * ((⌊(Real.pi - deg2rad x) / (2 * Real.pi)⌋ : ℤ) : ℝ) := by
    unfold rad2deg deg2rad
    field_simp
    ring
  rw [h2, pymod_add_int_mul _ _ _ (by norm_num)]

/-- C9: with obliquity 0, computing the geographic longitude for a target
Midheaven ecliptic longitude and evaluating the forward Midheaven formula
at that longitude reproduces the target exactly (in particular within the
claimed 1e-6° tolerance), for every sidereal time and every target in the
canonical ecliptic-longitude range [0, 360) used at every call site. -/
theorem mc_aspect_roundtrip (gst t : ℝ) (h0 : 0 ≤ t) (h1 : t < 360) :
    ecl_lon_of_mc gst (geo_lon_for_mc t gst 0) 0 = t ∧
      |ecl_lon_of_mc gst (geo_lon_for_mc t gst 0) 0 - t| ≤ 1 / 1000000 := by
  have hgeo : geo_lon_for_mc t gst 0 = pymod (pymod t 360 - gst + 540) 360 - 180 := by
    simp only [geo_lon_for_mc, Real.cos_zero, one_mul]
    rw [rad2deg_arctan2_sin_cos_mod t]
  have harg : pymod (gst + geo_lon_for_mc t gst 0) 360 = pymod t 360 := by
    rw [hgeo]
    obtain ⟨k, hk⟩ := pymod_sub_int_mul (pymod t 360 - gst + 540) (360 : ℝ)
    rw [hk]
    have hshift : gst + (pymod t 360 - gst + 540 - 360 * (k : ℝ) - 180) =
        pymod t 360 + 360 * (((1 - k : ℤ) : ℤ) : ℝ) := by
      push_cast
      ring
    rw [hshift, pymod_add_int_mul _ _ _ (by norm_num)]
    exact pymod_self_eq _ _ (pymod_nonneg t 360 (by norm_num)) (pymod_lt t 360 (by norm_num))
  have hmain : ecl_lon_of_mc gst (geo_lon_for_mc t gst 0) 0 = t := by
    simp only [ecl_lon_of_mc, Real.cos_zero, mul_one]
    rw [harg, rad2deg_arctan2_sin_cos_mod (pymod t 360),
      pymod_self_eq (pymod t 360) 360 (pymod_nonneg t 360 (by norm_num))
        (pymod_lt t 360 (by norm_num))]
    exact pymod_self_eq t 360 h0 h1
  exact ⟨hmain, by rw [hmain]; norm_num⟩

/-- C9 witness: target 123°, sidereal time 45°. -/
theorem mc_aspect_roundtrip_witness :
    (0 : ℝ) ≤ 123 ∧ (123 : ℝ) < 360 ∧
      |ecl_lon_of_mc 45 (geo_lon_for_mc 123 45 0) 0 - 123| ≤ 1 / 1000000 :=
  ⟨by norm_num, by norm_num, (mc_aspect_roundtrip 45 123 (by norm_num) (by norm_num)).2⟩

end AspectMC

section Horizon

/-- Line feature of generate_horizon_line (line_ac_dc.py): the
dateline-split geometry (one path or several) with the planet name and the
AC/DC segment index labels. -/
structure HorizonFeature where
  geometry : List (List (ℝ × ℝ))
  planet : String
  segments : List (String × ℕ × ℕ)

/-- Visibility test of line_ac_dc.py lines 63-65: the hour-angle half
width exists at latitude φ for declination δ iff `|cos H| ≤ 1` where
`cos H = -tan(φ)·tan(δ)` (inputs in degrees). -/
noncomputable def horizonVisible (delta phi : ℝ) : Prop :=
  |(-(Real.tan (deg2rad phi) * Real.tan (deg2rad delta)))| ≤ 1

noncomputable instance horizonVisible_decidable (delta phi : ℝ) :
    Decidable (horizonVisible delta phi) := by
  unfold horizonVisible
  infer_instance

/-- Ascending insertion used to model numpy.sort. -/
noncomputable def insertLe (x : ℝ) : List ℝ → List ℝ
  | [] => [x]
  | y :: ys => if x ≤ y then x :: y :: ys else y :: insertLe x ys

noncomputable def sortLe : List ℝ → List ℝ
  | [] => []
  | x :: xs => insertLe x (sortLe xs)

/-- generate_horizon_line (line_ac_dc.py lines 46-112). The ephemeris
values (declination δ, right ascension α, Greenwich sidereal time) are
explicit arguments as in the source's `chart` dict; the spline and
geodesic boundaries come from `B`. Invalid declination and an empty
visible set both return the plain absent value `none` (the source emits a
warning on stderr for the former and returns `None` for both); the only
error outcome models the source's `assert` on the dateline split. -/
noncomputable def generate_horizon_line (B : SplineBoundary ℝ) (planet : String)
    (delta alpha gst : ℝ) (lat_steps : List ℝ) (density : ℕ) :
    Except String (Option HorizonFeature) :=
  if |delta| > 90 then Except.ok none
  else
    let lat_vis := lat_steps.filter (fun φ => decide (horizonVisible delta φ))
    if lat_vis = [] then Except.ok none
    else
      let lat_vis_sorted := sortLe lat_vis
      let H0 := fun φ : ℝ =>
        Real.arccos (min 1 (max (-1) (-(Real.tan (deg2rad φ) * Real.tan (deg2rad delta)))))
      let lon_rise := lat_vis_sorted.map (fun φ => wrap540 ((alpha - rad2deg (H0 φ)) - gst))
      let lon_set := lat_vis_sorted.map (fun φ => wrap540 ((alpha + rad2deg (H0 φ)) - gst))
      let pts_ac := lon_rise.zip lat_vis_sorted
      let pts_dc := (lon_set.zip lat_vis_sorted).reverse
      let pts := pts_ac ++ pts_dc.tail
      let sp := parametric_spline B (pts.map Prod.fst) (pts.map Prod.snd) density
      let coords := sp.1.zip sp.2
      let segments := split_dateline coords 45
      if segments.all (fun seg => okSegB 180 seg) then
        Except.ok (some
          { geometry := segments
            planet := planet
            segments := [("AC", 0, pts_ac.length - 1), ("DC", pts_ac.length, coords.length - 1)] })
      else Except.error "Dateline split failed"

/-- The source's dateline-split safety assert can never fire: every
emitted segment has all consecutive longitude deltas at most 180. -/
theorem split_dateline_assert (seq : List (ℝ × ℝ)) :
    (split_dateline seq 45).all (fun seg => okSegB (180 : ℝ) seg) = true := by
  rw [List.all_eq_true]
  intro s hs
  cases seq with
  | nil => simp [split_dateline] at hs
  | cons p rest =>
    have h := split_datelineAux_mem (45 : ℝ) rest [p] (by simp) (by simp) s hs
    exact (okSegB_iff_chain (180 : ℝ) s).mpr h.2

/-- A nonempty visible set always produces a feature. -/
theorem generate_horizon_line_some (B : SplineBoundary ℝ) (planet : String)
    (delta alpha gst : ℝ) (lat_steps : List ℝ) (density : ℕ)
    (hdelta : ¬ |delta| > 90)
    (hvis : lat_steps.filter (fun φ => decide (horizonVisible delta φ)) ≠ []) :
    ∃ f, generate_horizon_line B planet delta alpha gst lat_steps density =
      Except.ok (some f) := by
  simp only [generate_horizon_line]
  rw [if_neg hdelta, if_neg hvis, if_pos (split_dateline_assert _)]
  exact ⟨_, rfl⟩

theorem horizonVisible_zero (phi : ℝ) : horizonVisible 0 phi := by
  unfold horizonVisible deg2rad
  simp [Real.tan_zero]

/-- A declination-0 body is visible at every latitude, so any nonempty
grid yields a feature. -/
theorem horizon_0_some (B : SplineBoundary ℝ) (planet : String)
    (alpha gst : ℝ) (lat_steps : List ℝ) (density : ℕ) (hne : lat_steps ≠ []) :
    ∃ f, generate_horizon_line B planet 0 alpha gst lat_steps density =
      Except.ok (some f) := by
  apply generate_horizon_line_some B planet 0 alpha gst lat_steps density (by norm_num)
  rw [List.filter_eq_self.mpr]
  · exact hne
  · intro φ _
    exact decide_eq_true (horizonVisible_zero φ)

theorem tan2_mul_tan89 : 1 < Real.tan (deg2rad 2) * Real.tan (deg2rad 89) := by
  have hpi := Real.pi_pos
  have h89 : deg2rad 89 = Real.pi / 2 - deg2rad 1 := by
    unfold deg2rad
    ring
  have h1pos : 0 < deg2rad 1 := by unfold deg2rad; positivity
  have h1lt : deg2rad 1 < Real.pi / 2 := by unfold deg2rad; nlinarith
  have h2pos : 0 < deg2rad 2 := by unfold deg2rad; positivity
  have h2lt : deg2rad 2 < Real.pi / 2 := by unfold deg2rad; nlinarith
  have h12 : deg2rad 1 < deg2rad 2 := by unfold deg2rad; nlinarith
  have htan1pos : 0 < Real.tan (deg2rad 1) :=
    Real.tan_pos_of_pos_of_lt_pi_div_two h1pos h1lt
  have htan12 : Real.tan (deg2rad 1) < Real.tan (deg2rad 2) :=
    Real.strictMonoOn_tan (Set.mem_Ioo.mpr ⟨by nlinarith, h1lt⟩)
      (Set.mem_Ioo.mpr ⟨by nlinarith, h2lt⟩) h12
  rw [h89, Real.tan_pi_div_two_sub, ← div_eq_mul_inv, lt_div_iff htan1pos]
  linarith

/-- In the band 2° ≤ |φ| ≤ 60° a declination-89° body never crosses the
horizon: `|cos H| > 1`. -/
theorem horizon_invisible_89 (φ : ℝ) (h2 : 2 ≤ |φ|) (h60 : |φ| ≤ 60) :
    ¬ horizonVisible 89 φ := by
  have hpi := Real.pi_pos
  have h89pos : 0 < deg2rad 89 := by unfold deg2rad; positivity
  have h89lt : deg2rad 89 < Real.pi / 2 := by unfold deg2rad; nlinarith
  have htan89pos : 0 < Real.tan (deg2rad 89) :=
    Real.tan_pos_of_pos_of_lt_pi_div_two h89pos h89lt
  have h2pos : 0 < deg2rad 2 := by unfold deg2rad; positivity
  have habslt : deg2rad |φ| < Real.pi / 2 := by
    unfold deg2rad
    nlinarith
  have habs : |Real.tan (deg2rad φ)| = Real.tan (deg2rad |φ|) := by
    rcases le_or_lt 0 φ with h | h
    · have hphieq : |φ| = φ := abs_of_nonneg h
      rw [hphieq] at habslt ⊢
      exact abs_of_nonneg (Real.tan_nonneg_of_nonneg_of_le_pi_div_two
        (by unfold deg2rad; exact mul_nonneg h (by positivity)) (le_of_lt habslt))
    · have hphieq : |φ| = -φ := abs_of_neg h
      rw [hphieq] at habslt ⊢
      have hneg : deg2rad φ = -(deg2rad (-φ)) := by unfold deg2rad; ring
      rw [hneg, Real.tan_neg, abs_neg]
      exact abs_of_nonneg (Real.tan_nonneg_of_nonneg_of_le_pi_div_two
        (by unfold deg2rad; exact mul_nonneg (by linarith) (by positivity))
        (le_of_lt habslt))
  have hmono : Real.tan (deg2rad 2) ≤ Real.tan (deg2rad |φ|) := by
    rcases eq_or_lt_of_le (by unfold deg2rad; nlinarith : deg2rad 2 ≤ deg2rad |φ|) with h | h
    · rw [h]
    · exact le_of_lt (Real.strictMonoOn_tan
        (Set.mem_Ioo.mpr ⟨by nlinarith, by unfold deg2rad at h2pos ⊢; nlinarith⟩)
        (Set.mem_Ioo.mpr ⟨by nlinarith [h2pos], habslt⟩) h)
  unfold horizonVisible
  push_neg
  calc (1 : ℝ) < Real.tan (deg2rad 2) * Real.tan (deg2rad 89) := tan2_mul_tan89
    _ ≤ |Real.tan (deg2rad φ)| * Real.tan (deg2rad 89) := by
        rw [habs]
        exact mul_le_mul_of_nonneg_right hmono (le_of_lt htan89pos)
    _ = |(-(Real.tan (deg2rad φ) * Real.tan (deg2rad 89)))| := by
        rw [abs_neg, abs_mul, abs_of_pos htan89pos]

/-- A declination-89° body with every grid latitude in the band
2° ≤ |φ| ≤ 60° yields the absent result. -/
theorem horizon_89_band_none (B : SplineBoundary ℝ) (planet : String)
    (alpha gst : ℝ) (lat_steps : List ℝ) (density : ℕ)
    (hband : ∀ φ ∈ lat_steps, 2 ≤ |φ| ∧ |φ| ≤ 60) :
    generate_horizon_line B planet 89 alpha gst lat_steps density =
      Except.ok none := by
  have hfil : lat_steps.filter (fun φ => decide (horizonVisible 89 φ)) = [] := by
    rw [List.filter_eq_nil_iff]
    intro φ hφ
    simp only [decide_eq_true_eq]
    exact horizon_invisible_89 φ (hband φ hφ).1 (hband φ hφ).2
  simp only [generate_horizon_line]
  rw [if_neg (by norm_num : ¬ |(89 : ℝ)| > 90), if_pos hfil]

end Horizon

/-- Trivial concrete spline boundary over ℝ for concrete instantiations. -/
noncomputable def B0r : SplineBoundary ℝ :=
  { dist := fun _ _ => 1, ok := fun _ _ _ => true, eval := fun _ _ _ _ => (0, 0) }

/-- Outcome test: the generator returned a line feature (not absence, not
an error). -/
def hasHorizonFeature : Except String (Option HorizonFeature) → Prop
  | Except.ok (some _) => True
  | _ => False

/-- C1 amended: a body with declination 0° is visible (`|cos H| ≤ 1`) at
every latitude, so every nonempty latitude grid produces a line feature;
and a body with declination 89° over a grid within ±60° whose latitudes
all stay at least 2° from the equator (where the body does cross the
horizon) yields the absent result, not an error. -/
theorem horizon_visibility_spec :
    (∀ φ : ℝ, horizonVisible 0 φ) ∧
      (∀ (B : SplineBoundary ℝ) (planet : String) (alpha gst : ℝ)
          (lat_steps : List ℝ) (density : ℕ), lat_steps ≠ [] →
          ∃ f, generate_horizon_line B planet 0 alpha gst lat_steps density =
            Except.ok (some f)) ∧
      (∀ (B : SplineBoundary ℝ) (planet : String) (alpha gst : ℝ)
          (lat_steps : List ℝ) (density : ℕ),
          (∀ φ ∈ lat_steps, 2 ≤ |φ| ∧ |φ| ≤ 60) →
          generate_horizon_line B planet 89 alpha gst lat_steps density =
            Except.ok none) :=
  ⟨horizonVisible_zero, horizon_0_some, horizon_89_band_none⟩

/-- C1 witness: a declination-0 body over the one-point grid [10°]
produces a feature; a declination-89° body over the grid [-60°, 60°]
produces the absent result. -/
theorem horizon_visibility_spec_witness :
    (([(10 : ℝ)] : List ℝ) ≠ [] ∧
        ∃ f, generate_horizon_line B0r "Sun" 0 100 50 [(10 : ℝ)] 400 =
          Except.ok (some f)) ∧
      (∀ φ ∈ ([-60, 60] : List ℝ), 2 ≤ |φ| ∧ |φ| ≤ 60) ∧
        generate_horizon_line B0r "Sun" 89 100 50 [-60, 60] 400 =
          Except.ok none := by
  refine ⟨⟨by simp, horizon_visibility_spec.2.1 B0r "Sun" 100 50 [10] 400 (by simp)⟩,
    ?_, horizon_visibility_spec.2.2 B0r "Sun" 100 50 [-60, 60] 400 ?_⟩ <;>
  · intro φ hφ
    simp at hφ
    rcases hφ with rfl | rfl <;> constructor <;> norm_num

/-- C1 counterexample: declination 89° with the latitude grid
[-60°, 0°, 60°] — a grid covering only ±60° — produces a line feature,
because the body does cross the horizon at the equator
(`cos H = -tan 0 · tan 89° = 0`), contradicting the claimed absent
result. -/
theorem horizon_89_grid_counterexample :
    hasHorizonFeature (generate_horizon_line B0r "Sun" 89 100 50 [-60, 0, 60] 400) := by
  have hvis0 : horizonVisible 89 0 := by
    unfold horizonVisible deg2rad
    simp [Real.tan_zero]
  have hmem : (0 : ℝ) ∈ ([-60, 0, 60] : List ℝ).filter
      (fun φ => decide (horizonVisible 89 φ)) :=
    List.mem_filter.mpr ⟨by simp, decide_eq_true hvis0⟩
  obtain ⟨f, hf⟩ := generate_horizon_line_some B0r "Sun" 89 100 50 [-60, 0, 60] 400
    (by norm_num) (List.ne_nil_of_mem hmem)
  rw [hf]
  trivial

/-- C2 amended: a declination with |δ| > 90 is rejected immediately — the
generator returns before any computation on the grid, never coercing the
value — but the rejection is the plain absent value `.ok none` (the
source emits a stderr warning and returns None), the same value the
expected-absence outcome returns, not a distinguishable construction
error. -/
theorem horizon_invalid_dec_none (B : SplineBoundary ℝ) (planet : String)
    (delta alpha gst : ℝ) (lat_steps : List ℝ) (density : ℕ)
    (h : |delta| > 90) :
    generate_horizon_line B planet delta alpha gst lat_steps density =
      Except.ok none := by
  simp only [generate_horizon_line]
  rw [if_pos h]

/-- C2 witness: declination 91°. -/
theorem horizon_invalid_dec_none_witness :
    |(91 : ℝ)| > 90 ∧
      generate_horizon_line B0r "Sun" 91 100 50 [0] 400 = Except.ok none :=
  ⟨by norm_num, horizon_invalid_dec_none B0r "Sun" 91 100 50 [0] 400 (by norm_num)⟩

/-- C2 counterexample: the invalid-input outcome (declination 91°) and the
expected-absence outcome (declination 89° over the grid [60°]) are the
identical value `.ok none`: the caller cannot distinguish the claimed
construction error from the none outcome by the returned value. -/
theorem horizon_invalid_indistinguishable :
    generate_horizon_line B0r "Sun" 91 100 50 [0] 400 = Except.ok none ∧
      generate_horizon_line B0r "Sun" 89 100 50 [60] 400 = Except.ok none := by
  constructor
  · simp only [generate_horizon_line]
    rw [if_pos (by norm_num : |(91 : ℝ)| > 90)]
  · exact horizon_89_band_none B0r "Sun" 100 50 [60] 400
      (by intro φ hφ; simp at hφ; rw [hφ]; constructor <;> norm_num)
